import Mathlib

/-!
# CadastroPets: the adoption sign-up form of `src/App.js`

A shallow embedding of the one screen of the repository:

* the regular expressions written in `App.js` (phone, birth date, the e-mail
  watcher), as a small pattern language with an executable matcher;
* the `yup` schema `schema`, field by field, and the error map and `isValid`
  flag that `useForm` derives from it through `yupResolver`;
* `onSubmit` / `handleSubmit` behind the submit button;
* `verificaEmail` and the `useEffect` watcher, as a transition system over the
  timers that are still in flight.

Strings are Lean strings, read as lists of characters.
-/

namespace CadastroPets

/-! ## Regular expressions -/

/-- Bodies of the regular expressions of `App.js`: character classes, sequence,
alternation and iteration. -/
inductive Pattern where
  | never : Pattern
  | eps : Pattern
  | cls (p : Char → Bool) : Pattern
  | seq (a b : Pattern) : Pattern
  | alt (a b : Pattern) : Pattern
  | star (a : Pattern) : Pattern

namespace Pattern

/-- The quantifier `+`: one or more. -/
def plus (a : Pattern) : Pattern := seq a (star a)

/-- The quantifier `{n}`: exactly `n` times. -/
def rep : Nat → Pattern → Pattern
  | 0, _ => eps
  | n + 1, a => seq a (rep n a)

/-- A sequence of several patterns. -/
def seqs : List Pattern → Pattern
  | [] => eps
  | [a] => a
  | a :: rest => seq a (seqs rest)

/-- Whether the pattern matches the empty input. -/
def nullable : Pattern → Bool
  | never => false
  | eps => true
  | cls _ => false
  | seq a b => nullable a && nullable b
  | alt a b => nullable a || nullable b
  | star _ => true

/-- The pattern that remains to be matched once the character `c` is read. -/
def deriv (c : Char) : Pattern → Pattern
  | never => never
  | eps => never
  | cls p => if p c then eps else never
  | seq a b => if nullable a then alt (seq (deriv c a) b) (deriv c b) else seq (deriv c a) b
  | alt a b => alt (deriv c a) (deriv c b)
  | star a => seq (deriv c a) (star a)

/-- The matcher: the whole input is consumed by the pattern. -/
def accepts (r : Pattern) : List Char → Bool
  | [] => nullable r
  | c :: t => accepts (deriv c r) t

/-- The inputs a pattern denotes. -/
def Matches : Pattern → List Char → Prop
  | never, _ => False
  | eps, s => s = []
  | cls p, s => ∃ c, s = [c] ∧ p c = true
  | seq a b, s => ∃ u v, s = u ++ v ∧ Matches a u ∧ Matches b v
  | alt a b, s => Matches a s ∨ Matches b s
  | star a, s => ∃ parts : List (List Char), s = parts.flatten ∧ ∀ u ∈ parts, Matches a u

end Pattern

/-- A regular expression literal: its body and whether it is written between
`^` and `$`. None of the literals of `App.js` carries a flag. -/
structure RegExp where
  anchored : Bool
  body : Pattern

/-- `RegExp.prototype.test`: an anchored expression must match the whole value,
an expression without anchors must match some substring of it. JavaScript
matches by UTF-16 code unit; a character outside the Basic Multilingual Plane
is two code units, which belong to `\S` and to no other class written in
`App.js`, so that matching by character accepts the same values. -/
def RegExp.test (re : RegExp) (s : String) : Bool :=
  if re.anchored then re.body.accepts s.toList
  else s.toList.tails.any fun t => t.inits.any re.body.accepts

/-! ### Character classes -/

/-- The class `\d`. -/
def digit (c : Char) : Bool := decide (48 ≤ c.toNat) && decide (c.toNat ≤ 57)

/-- A range class such as `[1-9]`. -/
def range (lo hi : Char) (c : Char) : Bool :=
  decide (lo.toNat ≤ c.toNat) && decide (c.toNat ≤ hi.toNat)

/-- A set class such as `[12]`, and a single literal character. -/
def oneOfChars (cs : List Char) (c : Char) : Bool := cs.contains c

/-- The class `\s` of ECMAScript: white space and line terminators. -/
def whitespace (c : Char) : Bool :=
  [9, 10, 11, 12, 13, 32, 0xA0, 0x1680, 0x2028, 0x2029, 0x202F, 0x205F, 0x3000, 0xFEFF].contains
    c.toNat
  || (decide (0x2000 ≤ c.toNat) && decide (c.toNat ≤ 0x200A))

/-- The class `\S`. -/
def nonWhitespace (c : Char) : Bool := !whitespace c

/-- A literal character of a pattern. -/
def lit (c : Char) : Pattern := Pattern.cls (oneOfChars [c])

/-! ## The `yup` schema

`yup` and `react-hook-form` are libraries; what is embedded of them is what
`App.js` uses: a string schema is the chain of tests written in the source,
`required` rejects the empty string (no test of the schema trims its value),
`matches` searches the value for the expression, `min` compares the `length`
of the value (in UTF-16 code units), `oneOf` compares the value with each entry
of its list, a `yup.ref` being read from the same object. `yupResolver` runs the
schema without `abortEarly`, so the tests of every field run and each failure
is reported under the key of its field. The expression `email` tests a value
against belongs to `yup` and is not in `App.js`: it is the parameter `rEmail`. -/

/-- The keys of the form, in the order of `defaultValues`. -/
inductive Campo where
  | nome | email | celular | dataNascimento | senha | confirmSenha
  | especie | sexo | idade | porte
  deriving DecidableEq

/-- Every key of the form. -/
def Campo.todos : List Campo :=
  [.nome, .email, .celular, .dataNascimento, .senha, .confirmSenha,
   .especie, .sexo, .idade, .porte]

/-- The values of the form: ten strings. -/
structure FormData where
  nome : String
  email : String
  celular : String
  dataNascimento : String
  senha : String
  confirmSenha : String
  especie : String
  sexo : String
  idade : String
  porte : String
  deriving DecidableEq

/-- The value stored under a key. -/
def FormData.get (d : FormData) : Campo → String
  | .nome => d.nome
  | .email => d.email
  | .celular => d.celular
  | .dataNascimento => d.dataNascimento
  | .senha => d.senha
  | .confirmSenha => d.confirmSenha
  | .especie => d.especie
  | .sexo => d.sexo
  | .idade => d.idade
  | .porte => d.porte

/-- The form with one key replaced. -/
def FormData.set (d : FormData) (c : Campo) (v : String) : FormData :=
  match c with
  | .nome => { d with nome := v }
  | .email => { d with email := v }
  | .celular => { d with celular := v }
  | .dataNascimento => { d with dataNascimento := v }
  | .senha => { d with senha := v }
  | .confirmSenha => { d with confirmSenha := v }
  | .especie => { d with especie := v }
  | .sexo => { d with sexo := v }
  | .idade => { d with idade := v }
  | .porte => { d with porte := v }

/-- The `defaultValues` of `useForm`: every field is the empty string. -/
def defaultValues : FormData := ⟨"", "", "", "", "", "", "", "", "", ""⟩

/-- The `length` of a JavaScript string: its number of UTF-16 code units. -/
def jsLength (s : String) : Nat :=
  (s.toList.map fun c => if c.toNat < 0x10000 then 1 else 2).sum

/-- One test of a string schema: the message it reports, its predicate on the
value, which may read the object the value belongs to, and whether it is one of
the tests `yup` runs first (the list of `oneOf`): when such a test fails, the
tests of the chain are not run for that value. -/
structure Teste where
  message : String
  passes : FormData → String → Bool
  initial : Bool

/-- An entry of the list given to `oneOf`. -/
inductive Permitido where
  | valor (s : String)
  | ref (c : Campo)
  | null

/-- `required(message)` of a string schema: the value has a non-zero length. -/
def required (message : String) : Teste :=
  ⟨message, fun _ v => jsLength v != 0, false⟩

/-- `matches(regex, message)`: the expression is found in the value. -/
def matchesRegExp (re : RegExp) (message : String) : Teste :=
  ⟨message, fun _ v => re.test v, false⟩

/-- `email(message)`: the empty string is left to `required`, any other value
must match the e-mail expression `rEmail` of the library. -/
def email (rEmail : String → Bool) (message : String) : Teste :=
  ⟨message, fun _ v => v == "" || rEmail v, false⟩

/-- `min(n, message)`: the value has at least `n` code units. -/
def min (n : Nat) (message : String) : Teste :=
  ⟨message, fun _ v => decide (n ≤ jsLength v), false⟩

/-- `oneOf(list, message)`: the value is strictly equal to an entry of the
list; a reference stands for the value of that key, `null` equals no string.
The test runs before the tests of the chain. -/
def oneOf (list : List Permitido) (message : String) : Teste :=
  ⟨message, fun parent v => list.any fun
    | .valor s => v == s
    | .ref c => v == parent.get c
    | .null => false, true⟩

/-- The expression of `celular`: `/^\(\d{2}\)\s\d{5}-\d{4}$/`. -/
def celularRegExp : RegExp :=
  RegExp.mk true (Pattern.seqs
    [lit '(', Pattern.rep 2 (.cls digit), lit ')', .cls whitespace,
     Pattern.rep 5 (.cls digit), lit '-', Pattern.rep 4 (.cls digit)])

/-- The group `(0[1-9]|[12][0-9]|3[01])`. -/
def diaPattern : Pattern :=
  .alt (.seq (lit '0') (.cls (range '1' '9')))
    (.alt (.seq (.cls (oneOfChars ['1', '2'])) (.cls (range '0' '9')))
      (.seq (lit '3') (.cls (oneOfChars ['0', '1']))))

/-- The group `(0[1-9]|1[012])`. -/
def mesPattern : Pattern :=
  .alt (.seq (lit '0') (.cls (range '1' '9')))
    (.seq (lit '1') (.cls (oneOfChars ['0', '1', '2'])))

/-- The group `(19|20)`. -/
def seculoPattern : Pattern :=
  .alt (.seq (lit '1') (lit '9')) (.seq (lit '2') (lit '0'))

/-- The expression of `dataNascimento`:
`/^(0[1-9]|[12][0-9]|3[01])\/(0[1-9]|1[012])\/(19|20)\d\d$/`. -/
def dataNascimentoRegExp : RegExp :=
  RegExp.mk true (Pattern.seqs
    [diaPattern, lit '/', mesPattern, lit '/', seculoPattern, .cls digit, .cls digit])

/-- The schema `schema`: for each key, the tests of its chain in the order they
are written. Tests without a message report the default message of `yup`. -/
def schema (rEmail : String → Bool) : Campo → List Teste
  | .nome => [required "Nome é obrigatório"]
  | .email => [email rEmail "E-mail inválido", required "E-mail é obrigatório"]
  | .celular =>
    [matchesRegExp celularRegExp "Celular inválido", required "Celular é obrigatório"]
  | .dataNascimento =>
    [matchesRegExp dataNascimentoRegExp "Data inválida",
     required "Data de Nascimento é obrigatória"]
  | .senha => [min 6 "Senha deve ter ao menos 6 caracteres", required "Senha é obrigatória"]
  | .confirmSenha =>
    [oneOf [.ref .senha, .null] "Senhas devem coincidir",
     required "Confirmação de senha é obrigatória"]
  | .especie =>
    [oneOf [.valor "Cachorro", .valor "Gato"]
       "especie must be one of the following values: Cachorro, Gato",
     required "especie is a required field"]
  | .sexo =>
    [oneOf [.valor "Macho", .valor "Fêmea"]
       "sexo must be one of the following values: Macho, Fêmea",
     required "sexo is a required field"]
  | .idade =>
    [oneOf [.valor "Filhote", .valor "Adulto", .valor "Idoso"]
       "idade must be one of the following values: Filhote, Adulto, Idoso",
     required "idade is a required field"]
  | .porte =>
    [oneOf [.valor "Pequeno", .valor "Médio", .valor "Grande"]
       "porte must be one of the following values: Pequeno, Médio, Grande",
     required "porte is a required field"]

/-- The messages of the tests of a list that fail on the value of a key. -/
def failures (d : FormData) (c : Campo) (tests : List Teste) : List String :=
  (tests.filter fun t => !t.passes d (d.get c)).map Teste.message

/-- The messages `yup` reports for one key: those of the tests run first when
one of them fails, those of the tests of the chain otherwise. -/
def fieldErrors (rEmail : String → Bool) (d : FormData) (c : Campo) : List String :=
  if (failures d c ((schema rEmail c).filter fun t => t.initial)).isEmpty then
    failures d c ((schema rEmail c).filter fun t => !t.initial)
  else failures d c ((schema rEmail c).filter fun t => t.initial)

/-- The check of one key: every test of its schema passes. -/
def fieldOk (rEmail : String → Bool) (d : FormData) (c : Campo) : Bool :=
  (schema rEmail c).all fun t => t.passes d (d.get c)

/-- `schema.validate(values, { abortEarly: false })`: the failures of every key,
each with its path. -/
def validate (rEmail : String → Bool) (d : FormData) : List (Campo × String) :=
  Campo.todos.flatMap fun c => (fieldErrors rEmail d c).map fun m => (c, m)

/-- The error object the resolver builds from the failures: one entry per path,
the first failure reported for it. -/
def parseErrorSchema (failures : List (Campo × String)) : List (Campo × String) :=
  failures.foldl (fun acc e => if acc.any (fun x => x.1 == e.1) then acc else acc ++ [e]) []

/-- The error object `yupResolver(schema)` returns for the values. The `errors`
of `formState` take their entries from this object, and `handleSubmit` runs
`onSubmit` when it is empty. -/
def resolverErrors (rEmail : String → Bool) (d : FormData) : List (Campo × String) :=
  parseErrorSchema (validate rEmail d)

/-- Whether the error object of the resolver has the key. -/
def hasError (rEmail : String → Bool) (d : FormData) (c : Campo) : Bool :=
  (resolverErrors rEmail d).any fun x => x.1 == c

/-- The `isValid` of `formState`: the error object of the resolver is empty. -/
def isValid (rEmail : String → Bool) (d : FormData) : Bool :=
  (resolverErrors rEmail d).isEmpty

/-! ## The component `CadastroAdocao`

The state of the screen: the values of the form, the flag `verificandoEmail`,
the alerts shown so far, and the `setTimeout` callbacks of `verificaEmail` that
have not run yet. Every callback is scheduled with the same delay, so they run
in the order they were scheduled; the `.then` attached to the promise runs with
the callback that resolves it. -/

/-- The calls of `Alert.alert`. -/
inductive Alerta where
  | sucesso (data : FormData)
  | emailJaCadastrado
  deriving DecidableEq

/-- The state of the screen. -/
structure Tela where
  values : FormData
  verificandoEmail : Bool
  timers : List String
  alerts : List Alerta
  deriving DecidableEq

/-- The screen when it is mounted: the default values, nothing in flight. -/
def Tela.inicial : Tela := ⟨defaultValues, false, [], []⟩

/-- The lower-case form of one character. -/
def lowerChar (c : Char) : List Char :=
  if c.toNat = 0x130 then ['i', Char.ofNat 0x307]
  else if c.toNat = 0x212A then ['k']
  else [c.toLower]

/-- `String.prototype.toLowerCase`, character by character. The letters `A`-`Z`
become `a`-`z`. Outside Basic Latin two code points have a lower-case form with
a Basic Latin letter in it, U+0130 (`i` followed by U+0307) and U+212A (`k`); the
lower-case forms of the others stay outside Basic Latin and are not tabulated
here: such a code point is kept, which a comparison with a Basic Latin literal
does not tell apart from its lower-case form. -/
def toLowerCase (s : String) : String :=
  String.mk (s.toList.flatMap lowerChar)

/-- The value `verificaEmail(email)` resolves to: `false` for the address the
mock takes as registered, `true` otherwise. -/
def verificaEmailOk (email : String) : Bool :=
  if toLowerCase email == "teste@teste.com" then false else true

/-- The expression of the watcher: `/\S+@\S+\.\S+/`. -/
def watcherRegExp : RegExp :=
  RegExp.mk false (Pattern.seqs
    [Pattern.plus (.cls nonWhitespace), lit '@', Pattern.plus (.cls nonWhitespace),
     lit '.', Pattern.plus (.cls nonWhitespace)])

/-- The condition of the effect: `emailValue && /\S+@\S+\.\S+/.test(emailValue)`. -/
def watcherTriggers (emailValue : String) : Bool :=
  emailValue != "" && watcherRegExp.test emailValue

/-- The synchronous part of `verificaEmail(email)`: the flag is raised and the
callback is scheduled. -/
def verificaEmail (email : String) (t : Tela) : Tela :=
  { t with verificandoEmail := true, timers := t.timers ++ [email] }

/-- The effect on `[emailValue]`, run when the watched value has changed. -/
def effect (emailValue : String) (t : Tela) : Tela :=
  if watcherTriggers emailValue then verificaEmail emailValue t else t

/-- The `onChange` of a field: the value is stored, and the effect runs when
the value of `email` is a new one. -/
def onChange (c : Campo) (v : String) (t : Tela) : Tela :=
  if c = .email ∧ v ≠ t.values.email then
    effect v { t with values := t.values.set c v }
  else { t with values := t.values.set c v }

/-- The oldest scheduled callback runs: the flag is lowered, the promise
resolves, and its `.then` alerts when the address is taken as registered. -/
def timeout (t : Tela) : Tela :=
  match t.timers with
  | [] => t
  | email :: rest =>
    { t with
      verificandoEmail := false
      timers := rest
      alerts := t.alerts ++ (if verificaEmailOk email then [] else [.emailJaCadastrado]) }

/-- The function `onSubmit`: the alert of success, with the data it is given. -/
def onSubmit (data : FormData) (t : Tela) : Tela :=
  { t with alerts := t.alerts ++ [.sucesso data] }

/-- What `handleSubmit(onSubmit)` does with the values: the resolver runs, and
`onSubmit` is called with the values when the error object is empty. The schema
has no transform, so the values the resolver returns are the values it read. -/
def handleSubmit (rEmail : String → Bool) (t : Tela) : Tela :=
  if (resolverErrors rEmail t.values).isEmpty then onSubmit t.values t else t

/-- A press on the submit button, which is `disabled` when `isValid` is false. -/
def onPress (rEmail : String → Bool) (t : Tela) : Tela :=
  if isValid rEmail t.values then handleSubmit rEmail t else t

/-- What can happen to the screen. -/
inductive Evento where
  | change (c : Campo) (v : String)
  | timeout
  | press
  deriving DecidableEq

/-- One event. -/
def step (rEmail : String → Bool) (t : Tela) : Evento → Tela
  | .change c v => onChange c v t
  | .timeout => timeout t
  | .press => onPress rEmail t

/-- The screen after a sequence of events. -/
def run (rEmail : String → Bool) (evs : List Evento) (t : Tela) : Tela :=
  evs.foldl (step rEmail) t

/-- The `errors` of `formState` after one event, `errs` being the object before
it. `useForm` is in mode `onChange` with a resolver: when a field changes, the
resolver runs on the new values and the entry of that field alone is set, or
removed when the resolver has no error for it; the entries of the other fields
stay as they are. `handleSubmit` stores the whole object of the resolver. The
order of the keys of the object is not observed. -/
def stepFormErrors (rEmail : String → Bool) (t : Tela) (errs : List (Campo × String)) :
    Evento → List (Campo × String)
  | .change c v =>
    match (resolverErrors rEmail (t.values.set c v)).find? fun x => x.1 == c with
    | some e => (errs.filter fun x => x.1 != c) ++ [e]
    | none => errs.filter fun x => x.1 != c
  | .timeout => errs
  | .press => if isValid rEmail t.values then resolverErrors rEmail t.values else errs

/-- The `errors` of `formState` after a sequence of events, from the screen `t`
and the object `errs`. -/
def formErrors (rEmail : String → Bool) :
    List Evento → Tela → List (Campo × String) → List (Campo × String)
  | [], _, errs => errs
  | ev :: rest, t, errs =>
    formErrors rEmail rest (step rEmail t ev) (stepFormErrors rEmail t errs ev)

/-! ## Shapes used to state the properties -/

/-- The input has one character per class of the list, in order, each in its
class, and nothing else. -/
def hasShape : List (Char → Bool) → List Char → Bool
  | [], [] => true
  | p :: ps, c :: cs => p c && hasShape ps cs
  | _, _ => false

/-- The shape `(NN)_NNNNN-NNNN`, the class of the separator after the closing
parenthesis being `sep`. -/
def celularShape (sep : Char → Bool) : List (Char → Bool) :=
  [(· == '('), Char.isDigit, Char.isDigit, (· == ')'), sep,
   Char.isDigit, Char.isDigit, Char.isDigit, Char.isDigit, Char.isDigit, (· == '-'),
   Char.isDigit, Char.isDigit, Char.isDigit, Char.isDigit]

/-- The number two decimal digits write. -/
def num2 (a b : Char) : Nat := 10 * (a.toNat - 48) + (b.toNat - 48)

/-- The form `DD/MM/YYYY`: eight decimal digits and two slashes, the day from 01
to 31, the month from 01 to 12, the year starting with 19 or 20. -/
def IsDate (l : List Char) : Prop :=
  ∃ d1 d2 m1 m2 y1 y2 y3 y4 : Char,
    l = [d1, d2, '/', m1, m2, '/', y1, y2, y3, y4] ∧
    (∀ c ∈ [d1, d2, m1, m2, y1, y2, y3, y4], c.isDigit = true) ∧
    1 ≤ num2 d1 d2 ∧ num2 d1 d2 ≤ 31 ∧ 1 ≤ num2 m1 m2 ∧ num2 m1 m2 ≤ 12 ∧
    (num2 y1 y2 = 19 ∨ num2 y1 y2 = 20)

/-- The rule the schema enforces on each key, written out: the name is not the
empty string, the e-mail is present and matches the expression of the library,
the phone has the shape with one character of `\s` as separator, the birth date
is `DD/MM/YYYY`, the password has six code units or more, the confirmation
equals the password and is not empty, each preference is one of its options. -/
def SchemaRule (rEmail : String → Bool) (d : FormData) : Campo → Prop
  | .nome => d.nome ≠ ""
  | .email => d.email ≠ "" ∧ rEmail d.email = true
  | .celular => hasShape (celularShape whitespace) d.celular.toList = true
  | .dataNascimento => IsDate d.dataNascimento.toList
  | .senha => 6 ≤ jsLength d.senha
  | .confirmSenha => d.confirmSenha = d.senha ∧ d.confirmSenha ≠ ""
  | .especie => d.especie ∈ ["Cachorro", "Gato"]
  | .sexo => d.sexo ∈ ["Macho", "Fêmea"]
  | .idade => d.idade ∈ ["Filhote", "Adulto", "Idoso"]
  | .porte => d.porte ∈ ["Pequeno", "Médio", "Grande"]

/-- The ten rules of the validation engine in the words of the specification:
the name is not empty once trimmed, the e-mail is present and has the shape of
an address, the phone is `(NN) NNNNN-NNNN` with a space, the birth date is
`DD/MM/YYYY`, the password has six characters or more, the confirmation equals
the password, and each preference is one of its options. -/
def SpecRules (rEmail : String → Bool) (d : FormData) : Prop :=
  (∃ c ∈ d.nome.toList, whitespace c = false) ∧
  (d.email ≠ "" ∧ rEmail d.email = true) ∧
  hasShape (celularShape (· == ' ')) d.celular.toList = true ∧
  IsDate d.dataNascimento.toList ∧
  6 ≤ jsLength d.senha ∧
  d.confirmSenha = d.senha ∧
  d.especie ∈ ["Cachorro", "Gato"] ∧
  d.sexo ∈ ["Macho", "Fêmea"] ∧
  d.idade ∈ ["Filhote", "Adulto", "Idoso"] ∧
  d.porte ∈ ["Pequeno", "Médio", "Grande"]

/-! ### The matcher computes the denotation -/

namespace Pattern

theorem nullable_iff (r : Pattern) : nullable r = true ↔ Matches r [] := by
  induction r with
  | never => simp [nullable, Matches]
  | eps => simp [nullable, Matches]
  | cls p => simp [nullable, Matches]
  | seq a b iha ihb =>
    simp only [nullable, Matches, Bool.and_eq_true, iha, ihb]
    constructor
    · rintro ⟨ha, hb⟩
      exact ⟨[], [], rfl, ha, hb⟩
    · rintro ⟨u, v, huv, ha, hb⟩
      have h := List.append_eq_nil.mp huv.symm
      rw [h.1] at ha
      rw [h.2] at hb
      exact ⟨ha, hb⟩
  | alt a b iha ihb => simp [nullable, Matches, iha, ihb]
  | star a _ =>
    simp only [nullable, Matches, true_iff]
    exact ⟨[], rfl, by simp⟩

theorem star_cons_iff (a : Pattern) (c : Char) (s : List Char) :
    Matches (star a) (c :: s) ↔
      ∃ u v, s = u ++ v ∧ Matches a (c :: u) ∧ Matches (star a) v := by
  constructor
  · rintro ⟨parts, hparts, hall⟩
    induction parts with
    | nil => simp at hparts
    | cons p rest ih =>
      cases p with
      | nil =>
        simp only [List.flatten_cons, List.nil_append] at hparts
        exact ih hparts (fun u hu => hall u (List.mem_cons_of_mem _ hu))
      | cons d u =>
        simp only [List.flatten_cons, List.cons_append, List.cons.injEq] at hparts
        obtain ⟨hd, hs⟩ := hparts
        subst hd
        refine ⟨u, rest.flatten, hs, hall _ (List.mem_cons_self _ _), rest, rfl, ?_⟩
        exact fun w hw => hall w (List.mem_cons_of_mem _ hw)
  · rintro ⟨u, v, hs, hu, parts, hv, hall⟩
    refine ⟨(c :: u) :: parts, ?_, ?_⟩
    · simp [hs, hv]
    · intro w hw
      rcases List.mem_cons.mp hw with h | h
      · rw [h]
        exact hu
      · exact hall w h

theorem deriv_iff (c : Char) (r : Pattern) (s : List Char) :
    Matches (deriv c r) s ↔ Matches r (c :: s) := by
  induction r generalizing s with
  | never => simp [deriv, Matches]
  | eps => simp [deriv, Matches]
  | cls p =>
    simp only [deriv, Matches]
    by_cases hp : p c = true
    · simp only [hp, if_true, Matches, List.cons.injEq]
      constructor
      · intro h
        exact ⟨c, ⟨rfl, h⟩, hp⟩
      · rintro ⟨d, ⟨_, h⟩, _⟩
        exact h
    · simp only [hp, Matches, List.cons.injEq, false_iff]
      rintro ⟨d, ⟨hd, _⟩, hpd⟩
      exact hp (hd ▸ hpd)
  | seq a b iha ihb =>
    have key : Matches (seq a b) (c :: s) ↔
        (∃ u v, s = u ++ v ∧ Matches a (c :: u) ∧ Matches b v) ∨
          (Matches a [] ∧ Matches b (c :: s)) := by
      simp only [Matches]
      constructor
      · rintro ⟨u, v, huv, ha, hb⟩
        cases u with
        | nil =>
          simp only [List.nil_append] at huv
          exact Or.inr ⟨ha, huv ▸ hb⟩
        | cons d u =>
          simp only [List.cons_append, List.cons.injEq] at huv
          obtain ⟨hd, hs⟩ := huv
          subst hd
          exact Or.inl ⟨u, v, hs, ha, hb⟩
      · rintro (⟨u, v, hs, ha, hb⟩ | ⟨ha, hb⟩)
        · exact ⟨c :: u, v, by simp [hs], ha, hb⟩
        · exact ⟨[], c :: s, rfl, ha, hb⟩
    rw [key]
    simp only [deriv]
    by_cases hn : nullable a = true
    · simp only [hn, if_true, Matches, iha, ihb]
      have hn' := (nullable_iff a).mp hn
      simp [hn']
    · simp only [hn, Matches, iha]
      have hn' : ¬ Matches a [] := fun h => hn ((nullable_iff a).mpr h)
      simp [hn']
  | alt a b iha ihb => simp [deriv, Matches, iha, ihb]
  | star a iha =>
    rw [star_cons_iff]
    simp only [deriv]
    constructor
    · rintro ⟨u, v, hs, hu, hv⟩
      exact ⟨u, v, hs, (iha u).mp hu, hv⟩
    · rintro ⟨u, v, hs, hu, hv⟩
      exact ⟨u, v, hs, (iha u).mpr hu, hv⟩

theorem accepts_iff (r : Pattern) (s : List Char) : accepts r s = true ↔ Matches r s := by
  induction s generalizing r with
  | nil => simpa [accepts] using nullable_iff r
  | cons c t ih => simp only [accepts, ih, deriv_iff]

end Pattern

/-! ### Reading the patterns of the schema -/

theorem toNat_eq_iff (c d : Char) : c.toNat = d.toNat ↔ c = d := by
  constructor
  · intro h
    rw [← Char.ofNat_toNat c, ← Char.ofNat_toNat d, h]
  · intro h
    rw [h]

theorem digit_eq_isDigit (c : Char) : digit c = c.isDigit := by
  simp only [digit, Char.isDigit, Char.toNat, ge_iff_le, UInt32.le_def]
  rfl

theorem isDigit_iff (c : Char) : c.isDigit = true ↔ 48 ≤ c.toNat ∧ c.toNat ≤ 57 := by
  rw [← digit_eq_isDigit]
  simp [digit]

theorem oneOfChars_iff (cs : List Char) (c : Char) :
    oneOfChars cs c = true ↔ c.toNat ∈ cs.map Char.toNat := by
  simp only [oneOfChars, List.contains_iff_exists_mem_beq, beq_iff_eq, List.mem_map]
  constructor
  · rintro ⟨a, ha, rfl⟩
    exact ⟨c, ha, rfl⟩
  · rintro ⟨a, ha, h⟩
    exact ⟨a, ha, ((toNat_eq_iff a c).mp h).symm⟩

theorem oneOfChars_single (x c : Char) : oneOfChars [x] c = (c == x) := by
  simp only [oneOfChars, List.contains, List.elem]
  cases (c == x) <;> rfl

namespace Pattern

theorem matches_eps (s : List Char) : Matches eps s ↔ s = [] := by
  simp [Matches]

theorem matches_cls (p : Char → Bool) (s : List Char) :
    Matches (cls p) s ↔ ∃ c t, s = c :: t ∧ p c = true ∧ t = [] := by
  simp only [Matches]
  constructor
  · rintro ⟨c, rfl, h⟩
    exact ⟨c, [], rfl, h, rfl⟩
  · rintro ⟨c, t, rfl, h, rfl⟩
    exact ⟨c, rfl, h⟩

theorem matches_seq_cls (p : Char → Bool) (r : Pattern) (s : List Char) :
    Matches (seq (cls p) r) s ↔ ∃ c t, s = c :: t ∧ p c = true ∧ Matches r t := by
  simp only [Matches]
  constructor
  · rintro ⟨u, v, rfl, ⟨c, rfl, h⟩, hv⟩
    exact ⟨c, v, rfl, h, hv⟩
  · rintro ⟨c, t, rfl, h, ht⟩
    exact ⟨[c], t, rfl, ⟨c, rfl, h⟩, ht⟩

theorem matches_seq_assoc (a b r : Pattern) (s : List Char) :
    Matches (seq (seq a b) r) s ↔ Matches (seq a (seq b r)) s := by
  simp only [Matches]
  constructor
  · rintro ⟨u, v, rfl, ⟨u1, u2, rfl, h1, h2⟩, hv⟩
    exact ⟨u1, u2 ++ v, by simp, h1, u2, v, rfl, h2, hv⟩
  · rintro ⟨u, v, rfl, hu, v1, v2, rfl, h1, h2⟩
    exact ⟨u ++ v1, v2, by simp, ⟨u, v1, rfl, hu, h1⟩, h2⟩

theorem matches_seq_eps (r : Pattern) (s : List Char) :
    Matches (seq eps r) s ↔ Matches r s := by
  simp only [Matches]
  constructor
  · rintro ⟨u, v, rfl, rfl, hv⟩
    exact hv
  · intro h
    exact ⟨[], s, rfl, rfl, h⟩

theorem matches_seq_alt (a b r : Pattern) (s : List Char) :
    Matches (seq (alt a b) r) s ↔ Matches (seq a r) s ∨ Matches (seq b r) s := by
  simp only [Matches]
  constructor
  · rintro ⟨u, v, rfl, h | h, hv⟩
    · exact Or.inl ⟨u, v, rfl, h, hv⟩
    · exact Or.inr ⟨u, v, rfl, h, hv⟩
  · rintro (⟨u, v, rfl, h, hv⟩ | ⟨u, v, rfl, h, hv⟩)
    · exact ⟨u, v, rfl, Or.inl h, hv⟩
    · exact ⟨u, v, rfl, Or.inr h, hv⟩

end Pattern

theorem hasShape_nil (l : List Char) : hasShape [] l = true ↔ l = [] := by
  cases l <;> simp [hasShape]

theorem hasShape_cons (p : Char → Bool) (ps : List (Char → Bool)) (l : List Char) :
    hasShape (p :: ps) l = true ↔ ∃ c t, l = c :: t ∧ p c = true ∧ hasShape ps t = true := by
  cases l with
  | nil => simp [hasShape]
  | cons d t =>
    simp only [hasShape, Bool.and_eq_true, List.cons.injEq]
    constructor
    · rintro ⟨h1, h2⟩
      exact ⟨d, t, ⟨rfl, rfl⟩, h1, h2⟩
    · rintro ⟨c, u, ⟨rfl, rfl⟩, h1, h2⟩
      exact ⟨h1, h2⟩

theorem celular_matches_iff (l : List Char) :
    celularRegExp.body.accepts l = true ↔ hasShape (celularShape whitespace) l = true := by
  rw [Pattern.accepts_iff]
  simp only [celularRegExp, Pattern.seqs, Pattern.rep, lit, celularShape,
    Pattern.matches_seq_assoc, Pattern.matches_seq_eps, Pattern.matches_seq_cls,
    Pattern.matches_cls, Pattern.matches_eps, hasShape_cons, hasShape_nil, digit_eq_isDigit,
    oneOfChars_single]

/-! ### The error object and the checks of the fields -/

theorem Campo.mem_todos (c : Campo) : c ∈ Campo.todos := by
  cases c <;> simp [Campo.todos]

theorem parseErrorSchema_aux (c : Campo) (fs acc : List (Campo × String)) :
    (fs.foldl (fun acc e => if acc.any (fun x => x.1 == e.1) then acc else acc ++ [e]) acc).any
        (fun x => x.1 == c) = true ↔
      acc.any (fun x => x.1 == c) = true ∨ ∃ m, (c, m) ∈ fs := by
  induction fs generalizing acc with
  | nil => simp
  | cons e rest ih =>
    rw [List.foldl_cons, ih]
    by_cases h : acc.any (fun x => x.1 == e.1) = true
    · rw [if_pos h]
      constructor
      · rintro (h1 | ⟨m, hm⟩)
        · exact Or.inl h1
        · exact Or.inr ⟨m, List.mem_cons_of_mem _ hm⟩
      · rintro (h1 | ⟨m, hm⟩)
        · exact Or.inl h1
        · rcases List.mem_cons.mp hm with heq | hin
          · left
            rw [← heq] at h
            exact h
          · exact Or.inr ⟨m, hin⟩
    · rw [if_neg h]
      simp only [List.any_append, List.any_cons, List.any_nil, Bool.or_false, Bool.or_eq_true,
        beq_iff_eq]
      constructor
      · rintro ((h1 | h1) | ⟨m, hm⟩)
        · exact Or.inl h1
        · exact Or.inr ⟨e.2, by rw [← h1]; exact List.mem_cons_self _ _⟩
        · exact Or.inr ⟨m, List.mem_cons_of_mem _ hm⟩
      · rintro (h1 | ⟨m, hm⟩)
        · exact Or.inl (Or.inl h1)
        · rcases List.mem_cons.mp hm with heq | hin
          · left
            right
            rw [← heq]
          · exact Or.inr ⟨m, hin⟩

theorem mem_validate (rEmail : String → Bool) (d : FormData) (c : Campo) (m : String) :
    (c, m) ∈ validate rEmail d ↔ m ∈ fieldErrors rEmail d c := by
  simp only [validate, List.mem_flatMap, List.mem_map, Prod.mk.injEq]
  constructor
  · rintro ⟨c', _, m', hm, rfl, rfl⟩
    exact hm
  · intro h
    exact ⟨c, Campo.mem_todos c, m, h, rfl, rfl⟩

theorem failures_eq_nil (d : FormData) (c : Campo) (tests : List Teste) :
    failures d c tests = [] ↔ ∀ t ∈ tests, t.passes d (d.get c) = true := by
  simp [failures, List.filter_eq_nil_iff]

theorem fieldErrors_eq_nil (rEmail : String → Bool) (d : FormData) (c : Campo) :
    fieldErrors rEmail d c = [] ↔ fieldOk rEmail d c = true := by
  unfold fieldErrors fieldOk
  rw [List.all_eq_true]
  by_cases h : failures d c ((schema rEmail c).filter fun t => t.initial) = []
  · rw [h]
    simp only [List.isEmpty_nil, if_true, failures_eq_nil]
    rw [failures_eq_nil] at h
    constructor
    · intro h2 t ht
      cases hi : t.initial with
      | true => exact h t (List.mem_filter.mpr ⟨ht, hi⟩)
      | false => exact h2 t (List.mem_filter.mpr ⟨ht, by simp [hi]⟩)
    · intro h2 t ht
      exact h2 t (List.mem_filter.mp ht).1
  · have hne : (failures d c ((schema rEmail c).filter fun t => t.initial)).isEmpty = false := by
      cases hf : failures d c ((schema rEmail c).filter fun t => t.initial) with
      | nil => exact absurd hf h
      | cons m ms => rfl
    rw [hne]
    simp only [Bool.false_eq_true, if_false]
    constructor
    · intro h2
      exact absurd h2 h
    · intro h2
      exfalso
      apply h
      rw [failures_eq_nil]
      intro t ht
      exact h2 t (List.mem_filter.mp ht).1

theorem hasError_iff (rEmail : String → Bool) (d : FormData) (c : Campo) :
    hasError rEmail d c = true ↔ fieldOk rEmail d c = false := by
  unfold hasError resolverErrors parseErrorSchema
  rw [parseErrorSchema_aux]
  simp only [List.any_nil, Bool.false_eq_true, false_or, mem_validate]
  rw [← Bool.not_eq_true, ← fieldErrors_eq_nil]
  cases fieldErrors rEmail d c with
  | nil => simp
  | cons m ms => simp

theorem hasError_eq_false_iff (rEmail : String → Bool) (d : FormData) (c : Campo) :
    hasError rEmail d c = false ↔ fieldOk rEmail d c = true := by
  rw [← Bool.not_eq_true, hasError_iff]
  simp

theorem isValid_iff (rEmail : String → Bool) (d : FormData) :
    isValid rEmail d = true ↔ ∀ c, fieldOk rEmail d c = true := by
  constructor
  · intro h c
    rw [← hasError_eq_false_iff]
    unfold isValid at h
    unfold hasError
    rw [List.isEmpty_iff.mp h]
    rfl
  · intro h
    unfold isValid
    rw [List.isEmpty_iff]
    cases hE : resolverErrors rEmail d with
    | nil => rfl
    | cons e es =>
      exfalso
      have h1 : hasError rEmail d e.1 = true := by
        unfold hasError
        rw [hE]
        simp
      rw [hasError_iff, h e.1] at h1
      exact Bool.noConfusion h1

theorem jsLength_eq_zero (s : String) : jsLength s = 0 ↔ s = "" := by
  unfold jsLength
  constructor
  · intro h
    cases hs : s.toList with
    | nil =>
      apply String.ext
      exact hs
    | cons c t =>
      rw [hs] at h
      simp only [List.map_cons, List.sum_cons] at h
      split at h <;> omega
  · intro h
    rw [h]
    rfl

theorem range_iff (lo hi c : Char) :
    range lo hi c = true ↔ lo.toNat ≤ c.toNat ∧ c.toNat ≤ hi.toNat := by
  simp [range]

theorem dia_seq_iff (r : Pattern) (l : List Char) :
    Pattern.Matches (.seq diaPattern r) l ↔
      ∃ a b t, l = a :: b :: t ∧ a.isDigit = true ∧ b.isDigit = true ∧
        1 ≤ num2 a b ∧ num2 a b ≤ 31 ∧ Pattern.Matches r t := by
  simp only [diaPattern, lit, Pattern.matches_seq_alt, Pattern.matches_seq_assoc,
    Pattern.matches_seq_cls, oneOfChars_iff, range_iff, isDigit_iff, num2, List.map_cons,
    List.map_nil, List.mem_cons, List.mem_singleton, List.not_mem_nil, or_false,
    Char.reduceToNat]
  constructor
  · rintro (⟨a, t, rfl, ha, b, u, rfl, hb, hr⟩ | ⟨a, t, rfl, ha, b, u, rfl, hb, hr⟩ |
      ⟨a, t, rfl, ha, b, u, rfl, hb, hr⟩)
    · exact ⟨a, b, u, rfl, by omega, by omega, by omega, by omega, hr⟩
    · exact ⟨a, b, u, rfl, by omega, by omega, by omega, by omega, hr⟩
    · exact ⟨a, b, u, rfl, by omega, by omega, by omega, by omega, hr⟩
  · rintro ⟨a, b, u, rfl, ha, hb, h1, h2, hr⟩
    have hcases : a.toNat = 48 ∨ (a.toNat = 49 ∨ a.toNat = 50) ∨ a.toNat = 51 := by omega
    rcases hcases with h | h | h
    · exact Or.inl ⟨a, _, rfl, h, b, u, rfl, by omega, hr⟩
    · exact Or.inr (Or.inl ⟨a, _, rfl, h, b, u, rfl, by omega, hr⟩)
    · exact Or.inr (Or.inr ⟨a, _, rfl, h, b, u, rfl, by omega, hr⟩)

theorem mes_seq_iff (r : Pattern) (l : List Char) :
    Pattern.Matches (.seq mesPattern r) l ↔
      ∃ a b t, l = a :: b :: t ∧ a.isDigit = true ∧ b.isDigit = true ∧
        1 ≤ num2 a b ∧ num2 a b ≤ 12 ∧ Pattern.Matches r t := by
  simp only [mesPattern, lit, Pattern.matches_seq_alt, Pattern.matches_seq_assoc,
    Pattern.matches_seq_cls, oneOfChars_iff, range_iff, isDigit_iff, num2, List.map_cons,
    List.map_nil, List.mem_cons, List.mem_singleton, List.not_mem_nil, or_false,
    Char.reduceToNat]
  constructor
  · rintro (⟨a, t, rfl, ha, b, u, rfl, hb, hr⟩ | ⟨a, t, rfl, ha, b, u, rfl, hb, hr⟩)
    · exact ⟨a, b, u, rfl, by omega, by omega, by omega, by omega, hr⟩
    · exact ⟨a, b, u, rfl, by omega, by omega, by omega, by omega, hr⟩
  · rintro ⟨a, b, u, rfl, ha, hb, h1, h2, hr⟩
    have hcases : a.toNat = 48 ∨ a.toNat = 49 := by omega
    rcases hcases with h | h
    · exact Or.inl ⟨a, _, rfl, h, b, u, rfl, by omega, hr⟩
    · exact Or.inr ⟨a, _, rfl, h, b, u, rfl, by omega, hr⟩

theorem seculo_seq_iff (r : Pattern) (l : List Char) :
    Pattern.Matches (.seq seculoPattern r) l ↔
      ∃ a b t, l = a :: b :: t ∧ a.isDigit = true ∧ b.isDigit = true ∧
        (num2 a b = 19 ∨ num2 a b = 20) ∧ Pattern.Matches r t := by
  simp only [seculoPattern, lit, Pattern.matches_seq_alt, Pattern.matches_seq_assoc,
    Pattern.matches_seq_cls, oneOfChars_iff, range_iff, isDigit_iff, num2, List.map_cons,
    List.map_nil, List.mem_cons, List.mem_singleton, List.not_mem_nil, or_false,
    Char.reduceToNat]
  constructor
  · rintro (⟨a, t, rfl, ha, b, u, rfl, hb, hr⟩ | ⟨a, t, rfl, ha, b, u, rfl, hb, hr⟩)
    · exact ⟨a, b, u, rfl, by omega, by omega, by omega, hr⟩
    · exact ⟨a, b, u, rfl, by omega, by omega, by omega, hr⟩
  · rintro ⟨a, b, u, rfl, ha, hb, h1, hr⟩
    have hcases : a.toNat = 48 + 1 ∨ a.toNat = 48 + 2 := by omega
    rcases hcases with h | h
    · exact Or.inl ⟨a, _, rfl, h, b, u, rfl, by omega, hr⟩
    · exact Or.inr ⟨a, _, rfl, h, b, u, rfl, by omega, hr⟩

theorem dataNascimento_matches_iff (l : List Char) :
    dataNascimentoRegExp.body.accepts l = true ↔ IsDate l := by
  rw [Pattern.accepts_iff]
  unfold IsDate
  simp only [dataNascimentoRegExp, Pattern.seqs, dia_seq_iff, mes_seq_iff, seculo_seq_iff, lit,
    Pattern.matches_seq_cls, Pattern.matches_cls, oneOfChars_single, beq_iff_eq,
    digit_eq_isDigit]
  constructor
  · rintro ⟨d1, d2, t, rfl, hd1, hd2, h1, h2, s1, t1, rfl, rfl, m1, m2, t2, rfl, hm1, hm2, h3,
      h4, s2, t3, rfl, rfl, y1, y2, t4, rfl, hy1, hy2, h5, y3, t5, rfl, hy3, y4, t6, rfl, hy4, rfl⟩
    refine ⟨d1, d2, m1, m2, y1, y2, y3, y4, rfl, ?_, h1, h2, h3, h4, h5⟩
    intro c hc
    simp only [List.mem_cons, List.mem_singleton, List.not_mem_nil, or_false] at hc
    rcases hc with rfl | rfl | rfl | rfl | rfl | rfl | rfl | rfl <;> assumption
  · rintro ⟨d1, d2, m1, m2, y1, y2, y3, y4, rfl, hdig, h1, h2, h3, h4, h5⟩
    simp only [List.mem_cons, List.mem_singleton, List.not_mem_nil, or_false, forall_eq_or_imp,
      forall_eq] at hdig
    obtain ⟨hd1, hd2, hm1, hm2, hy1, hy2, hy3, hy4⟩ := hdig
    exact ⟨d1, d2, _, rfl, hd1, hd2, h1, h2, _, _, rfl, rfl, m1, m2, _, rfl, hm1, hm2, h3, h4,
      _, _, rfl, rfl, y1, y2, _, rfl, hy1, hy2, h5, y3, _, rfl, hy3, y4, _, rfl, hy4, rfl⟩


theorem celular_ok_iff (rEmail : String → Bool) (d : FormData) :
    fieldOk rEmail d .celular = true ↔
      hasShape (celularShape whitespace) d.celular.toList = true := by
  simp only [fieldOk, schema, matchesRegExp, required, FormData.get, List.all_cons,
    List.all_nil, Bool.and_true, Bool.and_eq_true, bne_iff_ne, ne_eq, jsLength_eq_zero]
  have htest : celularRegExp.test d.celular = celularRegExp.body.accepts d.celular.toList := by
    simp [RegExp.test, celularRegExp]
  rw [htest, celular_matches_iff]
  constructor
  · exact fun h => h.1
  · intro h
    refine ⟨h, ?_⟩
    intro hempty
    rw [hempty] at h
    revert h
    decide

theorem dataNascimento_ok_iff (rEmail : String → Bool) (d : FormData) :
    fieldOk rEmail d .dataNascimento = true ↔ IsDate d.dataNascimento.toList := by
  simp only [fieldOk, schema, matchesRegExp, required, FormData.get, List.all_cons,
    List.all_nil, Bool.and_true, Bool.and_eq_true, bne_iff_ne, ne_eq, jsLength_eq_zero]
  have htest : dataNascimentoRegExp.test d.dataNascimento
      = dataNascimentoRegExp.body.accepts d.dataNascimento.toList := by
    simp [RegExp.test, dataNascimentoRegExp]
  rw [htest, dataNascimento_matches_iff]
  constructor
  · exact fun h => h.1
  · intro h
    refine ⟨h, ?_⟩
    intro hempty
    rw [hempty] at h
    obtain ⟨d1, d2, m1, m2, y1, y2, y3, y4, hl, _⟩ := h
    exact List.noConfusion hl

theorem celularShape_space (l : List Char)
    (h : hasShape (celularShape (· == ' ')) l = true) :
    hasShape (celularShape whitespace) l = true := by
  simp only [celularShape, hasShape_cons, hasShape_nil] at h ⊢
  obtain ⟨c1, t1, h1, p1, c2, t2, h2, p2, c3, t3, h3, p3, c4, t4, h4, p4, c5, t5, h5, p5,
    rest⟩ := h
  refine ⟨c1, t1, h1, p1, c2, t2, h2, p2, c3, t3, h3, p3, c4, t4, h4, p4, c5, t5, h5, ?_, rest⟩
  have : c5 = ' ' := by simpa using p5
  rw [this]
  decide

theorem oneOf_valores_ok (d : FormData) (v : String) (vals : List String) (m1 m2 : String)
    (hne : "" ∉ vals) :
    ([oneOf (vals.map .valor) m1, required m2].all fun t => t.passes d v) = true ↔ v ∈ vals := by
  simp only [oneOf, required, List.all_cons, List.all_nil, Bool.and_true, Bool.and_eq_true,
    List.any_eq_true, bne_iff_ne, ne_eq, jsLength_eq_zero]
  constructor
  · rintro ⟨⟨x, hx, hpass⟩, _⟩
    obtain ⟨w, hw, rfl⟩ := List.mem_map.mp hx
    have : v = w := by simpa using hpass
    rw [this]
    exact hw
  · intro hv
    refine ⟨⟨.valor v, List.mem_map.mpr ⟨v, hv, rfl⟩, by simp⟩, ?_⟩
    intro he
    rw [he] at hv
    exact hne hv

theorem fieldOk_iff_rule (rEmail : String → Bool) (d : FormData) (c : Campo) :
    fieldOk rEmail d c = true ↔ SchemaRule rEmail d c := by
  cases c with
  | nome => simp [fieldOk, schema, required, FormData.get, jsLength_eq_zero, SchemaRule]
  | email =>
    simp only [fieldOk, schema, email, required, FormData.get, SchemaRule, List.all_cons,
      List.all_nil, Bool.and_true, Bool.and_eq_true, Bool.or_eq_true, beq_iff_eq, bne_iff_ne,
      ne_eq, jsLength_eq_zero]
    tauto
  | celular => exact celular_ok_iff rEmail d
  | dataNascimento => exact dataNascimento_ok_iff rEmail d
  | senha =>
    simp only [fieldOk, schema, min, required, FormData.get, SchemaRule, List.all_cons,
      List.all_nil, Bool.and_true, Bool.and_eq_true, decide_eq_true_eq, bne_iff_ne, ne_eq]
    omega
  | confirmSenha =>
    simp only [fieldOk, schema, oneOf, required, FormData.get, SchemaRule, List.all_cons,
      List.all_nil, List.any_cons, List.any_nil, Bool.or_false, Bool.and_true, Bool.and_eq_true,
      beq_iff_eq, bne_iff_ne, ne_eq, jsLength_eq_zero]
  | especie => exact oneOf_valores_ok d d.especie ["Cachorro", "Gato"] _ _ (by decide)
  | sexo => exact oneOf_valores_ok d d.sexo ["Macho", "Fêmea"] _ _ (by decide)
  | idade => exact oneOf_valores_ok d d.idade ["Filhote", "Adulto", "Idoso"] _ _ (by decide)
  | porte => exact oneOf_valores_ok d d.porte ["Pequeno", "Médio", "Grande"] _ _ (by decide)

theorem specRules_valid (rEmail : String → Bool) (d : FormData) (h : SpecRules rEmail d) :
    isValid rEmail d = true := by
  obtain ⟨hnome, ⟨hemail, hre⟩, hcel, hdata, hsenha, hconf, hesp, hsexo, hidade, hporte⟩ := h
  rw [isValid_iff]
  intro c
  cases c with
  | nome =>
    obtain ⟨x, hx, _⟩ := hnome
    have hne : d.nome ≠ "" := by
      intro he
      rw [he] at hx
      exact List.not_mem_nil _ hx
    simpa [fieldOk, schema, required, FormData.get, jsLength_eq_zero] using hne
  | email =>
    simp [fieldOk, schema, email, required, FormData.get, jsLength_eq_zero, hemail, hre]
  | celular => exact (celular_ok_iff rEmail d).mpr (celularShape_space _ hcel)
  | dataNascimento => exact (dataNascimento_ok_iff rEmail d).mpr hdata
  | senha =>
    have hne : jsLength d.senha ≠ 0 := by omega
    simp [fieldOk, schema, min, required, FormData.get, hsenha, hne]
  | confirmSenha =>
    have hne : jsLength d.senha ≠ 0 := by omega
    simp [fieldOk, schema, oneOf, required, FormData.get, hconf, hne]
  | especie =>
    simp only [List.mem_cons, List.mem_singleton, List.not_mem_nil, or_false] at hesp
    rcases hesp with h | h <;> rw [fieldOk, FormData.get, h] <;> rfl
  | sexo =>
    simp only [List.mem_cons, List.mem_singleton, List.not_mem_nil, or_false] at hsexo
    rcases hsexo with h | h <;> rw [fieldOk, FormData.get, h] <;> rfl
  | idade =>
    simp only [List.mem_cons, List.mem_singleton, List.not_mem_nil, or_false] at hidade
    rcases hidade with h | h | h <;> rw [fieldOk, FormData.get, h] <;> rfl
  | porte =>
    simp only [List.mem_cons, List.mem_singleton, List.not_mem_nil, or_false] at hporte
    rcases hporte with h | h | h <;> rw [fieldOk, FormData.get, h] <;> rfl

/-! ### The e-mail check and the watcher -/

theorem lower_flatMap_eq_iff (l tgt : List Char)
    (htgt : ∀ x ∈ tgt, x.toNat ≠ 0x69 ∧ x.toNat ≠ 0x6B ∧ x.toNat ≠ 0x130 ∧ x.toNat ≠ 0x212A) :
    l.flatMap lowerChar = tgt ↔ l.map Char.toLower = tgt := by
  induction l generalizing tgt with
  | nil => simp
  | cons c l ih =>
    simp only [List.flatMap_cons, List.map_cons, lowerChar]
    by_cases h1 : c.toNat = 0x130
    · have hc : c = Char.ofNat 0x130 := by rw [← Char.ofNat_toNat c, h1]
      subst hc
      rw [if_pos h1]
      constructor
      · intro h
        have hm : 'i' ∈ tgt := by
          rw [← h]
          simp
        exact absurd rfl (htgt _ hm).1
      · intro h
        have hm : (Char.ofNat 0x130).toLower ∈ tgt := by
          rw [← h]
          simp
        exact absurd (by decide) (htgt _ hm).2.2.1
    · rw [if_neg h1]
      by_cases h2 : c.toNat = 0x212A
      · have hc : c = Char.ofNat 0x212A := by rw [← Char.ofNat_toNat c, h2]
        subst hc
        rw [if_pos h2]
        constructor
        · intro h
          have hm : 'k' ∈ tgt := by
            rw [← h]
            simp
          exact absurd rfl (htgt _ hm).2.1
        · intro h
          have hm : (Char.ofNat 0x212A).toLower ∈ tgt := by
            rw [← h]
            simp
          exact absurd (by decide) (htgt _ hm).2.2.2
      · rw [if_neg h2]
        cases tgt with
        | nil => simp
        | cons x xs =>
          simp only [List.singleton_append, List.cons.injEq]
          rw [ih xs (fun y hy => htgt y (List.mem_cons_of_mem _ hy))]

theorem verificaEmailOk_eq_false_iff (e : String) :
    verificaEmailOk e = false ↔ e.toList.map Char.toLower = "teste@teste.com".toList := by
  unfold verificaEmailOk toLowerCase
  rw [← lower_flatMap_eq_iff _ _ (by decide)]
  constructor
  · intro h
    split at h
    · rename_i heq
      have := eq_of_beq heq
      exact congrArg String.toList this
    · exact Bool.noConfusion h
  · intro h
    rw [h]
    rfl

theorem test_unanchored (body : Pattern) (s : String) :
    (RegExp.mk false body).test s = true ↔
      ∃ pre mid post, s.toList = pre ++ mid ++ post ∧ Pattern.Matches body mid := by
  simp only [RegExp.test, Bool.false_eq_true, if_false, List.any_eq_true, List.mem_tails,
    List.mem_inits, Pattern.accepts_iff]
  constructor
  · rintro ⟨t, ⟨pre, hpre⟩, mid, ⟨post, hpost⟩, hm⟩
    exact ⟨pre, mid, post, by rw [← hpre, ← hpost, List.append_assoc], hm⟩
  · rintro ⟨pre, mid, post, hs, hm⟩
    exact ⟨mid ++ post, ⟨pre, by rw [hs, List.append_assoc]⟩, mid, ⟨post, rfl⟩, hm⟩

theorem matches_star_cls (p : Char → Bool) (u : List Char) :
    Pattern.Matches (.star (.cls p)) u ↔ ∀ x ∈ u, p x = true := by
  simp only [Pattern.Matches]
  constructor
  · rintro ⟨parts, rfl, hall⟩ x hx
    obtain ⟨w, hw, hxw⟩ := List.mem_flatten.mp hx
    obtain ⟨c, rfl, hc⟩ := hall w hw
    rw [List.mem_singleton.mp hxw]
    exact hc
  · intro h
    refine ⟨u.map fun c => [c], ?_, ?_⟩
    · clear h
      induction u with
      | nil => rfl
      | cons c t ih => simp [← ih]
    · intro w hw
      obtain ⟨c, hc, rfl⟩ := List.mem_map.mp hw
      exact ⟨c, rfl, h c hc⟩

theorem matches_plus_cls_seq (p : Char → Bool) (r : Pattern) (l : List Char) :
    Pattern.Matches (.seq (Pattern.plus (.cls p)) r) l ↔
      ∃ a t, l = a ++ t ∧ a ≠ [] ∧ (∀ x ∈ a, p x = true) ∧ Pattern.Matches r t := by
  simp only [Pattern.plus, Pattern.matches_seq_assoc, Pattern.matches_seq_cls]
  constructor
  · rintro ⟨c, t, rfl, hc, hrest⟩
    obtain ⟨u, v, rfl, hu, hv⟩ := hrest
    rw [matches_star_cls] at hu
    refine ⟨c :: u, v, rfl, List.cons_ne_nil _ _, ?_, hv⟩
    intro x hx
    rcases List.mem_cons.mp hx with rfl | hx
    · exact hc
    · exact hu x hx
  · rintro ⟨a, t, rfl, hne, hall, hr⟩
    cases a with
    | nil => exact absurd rfl hne
    | cons c u =>
      refine ⟨c, u ++ t, rfl, hall c (List.mem_cons_self _ _), u, t, rfl, ?_, hr⟩
      rw [matches_star_cls]
      exact fun x hx => hall x (List.mem_cons_of_mem _ hx)

theorem matches_plus_cls (p : Char → Bool) (l : List Char) :
    Pattern.Matches (Pattern.plus (.cls p)) l ↔ l ≠ [] ∧ ∀ x ∈ l, p x = true := by
  have h := matches_plus_cls_seq p .eps l
  have h2 : Pattern.Matches (.seq (Pattern.plus (.cls p)) .eps) l ↔
      Pattern.Matches (Pattern.plus (.cls p)) l := by
    simp only [Pattern.Matches]
    constructor
    · rintro ⟨u, v, rfl, hu, rfl⟩
      simpa using hu
    · intro hu
      exact ⟨l, [], by simp, hu, rfl⟩
  rw [← h2, h]
  constructor
  · rintro ⟨a, t, rfl, hne, hall, ht⟩
    rw [Pattern.matches_eps] at ht
    subst ht
    simpa using ⟨hne, hall⟩
  · rintro ⟨hne, hall⟩
    exact ⟨l, [], by simp, hne, hall, rfl⟩

theorem watcher_matches_iff (mid : List Char) :
    Pattern.Matches watcherRegExp.body mid ↔
      ∃ a b c, mid = a ++ '@' :: (b ++ '.' :: c) ∧ a ≠ [] ∧ b ≠ [] ∧ c ≠ [] ∧
        ∀ x ∈ a ++ b ++ c, whitespace x = false := by
  simp only [watcherRegExp, Pattern.seqs, lit, matches_plus_cls_seq, matches_plus_cls,
    Pattern.matches_seq_cls, oneOfChars_single, beq_iff_eq, nonWhitespace, Bool.not_eq_true']
  constructor
  · rintro ⟨a, t, rfl, ha, halla, x, t2, rfl, rfl, b, t3, rfl, hb, hallb, y, c, rfl, rfl, hc, hallc⟩
    refine ⟨a, b, c, rfl, ha, hb, hc, ?_⟩
    intro z hz
    simp only [List.mem_append] at hz
    rcases hz with (hz | hz) | hz
    · exact halla z hz
    · exact hallb z hz
    · exact hallc z hz
  · rintro ⟨a, b, c, rfl, ha, hb, hc, hall⟩
    refine ⟨a, _, rfl, ha, fun z hz => hall z (by simp [hz]), '@', _, rfl, rfl, b, _, rfl, hb,
      fun z hz => hall z (by simp [hz]), '.', c, rfl, rfl, hc, fun z hz => hall z (by simp [hz])⟩

theorem watcherTriggers_iff (v : String) :
    watcherTriggers v = true ↔
      v ≠ "" ∧ ∃ pre a b c post, v.toList = pre ++ (a ++ '@' :: (b ++ '.' :: c)) ++ post ∧
        a ≠ [] ∧ b ≠ [] ∧ c ≠ [] ∧ ∀ x ∈ a ++ b ++ c, whitespace x = false := by
  unfold watcherTriggers
  have hre : watcherRegExp = RegExp.mk false watcherRegExp.body := rfl
  rw [Bool.and_eq_true, bne_iff_ne, hre, test_unanchored]
  simp only [watcher_matches_iff]
  constructor
  · rintro ⟨hne, pre, mid, post, hs, a, b, c, rfl, h⟩
    exact ⟨hne, pre, a, b, c, post, hs, h⟩
  · rintro ⟨hne, pre, a, b, c, post, hs, h⟩
    exact ⟨hne, pre, _, post, hs, a, b, c, rfl, h⟩

theorem timeout_cons (t : Tela) (e : String) (rest : List String) (h : t.timers = e :: rest) :
    timeout t =
      { t with
        verificandoEmail := false
        timers := rest
        alerts := t.alerts ++ (if verificaEmailOk e then [] else [.emailJaCadastrado]) } := by
  unfold timeout
  rw [h]

theorem onChange_email (t : Tela) (v : String) (h : v ≠ t.values.email) :
    onChange .email v t =
      if watcherTriggers v then verificaEmail v { t with values := t.values.set .email v }
      else { t with values := t.values.set .email v } := by
  unfold onChange effect
  rw [if_pos ⟨rfl, h⟩]

theorem step_pending (rEmail : String → Bool) (t : Tela) (ev : Evento)
    (h : t.verificandoEmail = true → t.timers ≠ []) :
    (step rEmail t ev).verificandoEmail = true → (step rEmail t ev).timers ≠ [] := by
  cases ev with
  | change c v =>
    simp only [step, onChange, effect]
    split
    · split
      · intro _
        simp [verificaEmail]
      · exact h
    · exact h
  | timeout =>
    simp only [step, timeout]
    split
    · exact h
    · intro hf
      exact Bool.noConfusion hf
  | press =>
    simp only [step, onPress, handleSubmit]
    split
    · split
      · exact h
      · exact h
    · exact h

theorem run_pending (rEmail : String → Bool) (evs : List Evento) (t : Tela)
    (h : t.verificandoEmail = true → t.timers ≠ []) :
    (run rEmail evs t).verificandoEmail = true → (run rEmail evs t).timers ≠ [] := by
  induction evs generalizing t with
  | nil => exact h
  | cons ev rest ih => exact ih (step rEmail t ev) (step_pending rEmail t ev h)

theorem stepFormErrors_change (rEmail : String → Bool) (t : Tela)
    (errs : List (Campo × String)) (c : Campo) (v : String) :
    stepFormErrors rEmail t errs (.change c v) =
      match (resolverErrors rEmail (t.values.set c v)).find? fun x => x.1 == c with
      | some e => (errs.filter fun x => x.1 != c) ++ [e]
      | none => errs.filter fun x => x.1 != c :=
  rfl

theorem stepFormErrors_change_key (rEmail : String → Bool) (t : Tela)
    (errs : List (Campo × String)) (c : Campo) (v : String)
    (h : hasError rEmail (t.values.set c v) c = true) :
    (stepFormErrors rEmail t errs (.change c v)).any (fun x => x.1 == c) = true := by
  rw [stepFormErrors_change]
  cases hf : (resolverErrors rEmail (t.values.set c v)).find? fun x => x.1 == c with
  | none =>
    exfalso
    unfold hasError at h
    obtain ⟨x, hx, hxc⟩ := List.any_eq_true.mp h
    have := List.find?_eq_none.mp hf x hx
    exact this hxc
  | some e =>
    have he := List.find?_some hf
    simp only [List.any_append, List.any_cons, List.any_nil, Bool.or_false, Bool.or_eq_true]
    exact Or.inr he

theorem any_filter_other (errs : List (Campo × String)) (c k : Campo) (hk : k ≠ c) :
    (errs.filter fun x => x.1 != c).any (fun x => x.1 == k) = errs.any (fun x => x.1 == k) := by
  induction errs with
  | nil => rfl
  | cons x xs ih =>
    by_cases hx : x.1 = c
    · have h1 : (x.1 != c) = false := by simp [hx]
      have h2 : (x.1 == k) = false := by
        rw [hx]
        simpa using fun h => hk h.symm
      rw [List.filter_cons, h1, List.any_cons, h2]
      simpa using ih
    · have h1 : (x.1 != c) = true := by simp [hx]
      rw [List.filter_cons, h1]
      simp only [if_true, List.any_cons, ih]

theorem stepFormErrors_change_other (rEmail : String → Bool) (t : Tela)
    (errs : List (Campo × String)) (c : Campo) (v : String) (k : Campo) (hk : k ≠ c) :
    (stepFormErrors rEmail t errs (.change c v)).any (fun x => x.1 == k)
      = errs.any (fun x => x.1 == k) := by
  rw [stepFormErrors_change]
  cases hf : (resolverErrors rEmail (t.values.set c v)).find? fun x => x.1 == c with
  | none => exact any_filter_other errs c k hk
  | some e =>
    have he : e.1 = c := by simpa using List.find?_some hf
    have h2 : (e.1 == k) = false := by
      rw [he]
      simpa using fun h => hk h.symm
    simp only [List.any_append, List.any_cons, List.any_nil, Bool.or_false, h2]
    exact any_filter_other errs c k hk

/-! ## The claims -/

/-- C1, as written, fails: with `senha` and `confirmSenha` both empty the two
are equal and `confirmSenha` still carries an error, that of `required`. -/
theorem C1_counterexample :
    ¬ ∀ (rEmail : String → Bool) (d : FormData),
        (hasError rEmail d .confirmSenha = true ↔ d.confirmSenha ≠ d.senha) := by
  intro h
  have h1 : hasError (fun _ => true) defaultValues .confirmSenha = true := by decide
  exact ((h (fun _ => true) defaultValues).mp h1) rfl

/-- C1, amended: the error object has the key `confirmSenha` if and only if
`confirmSenha` differs from `senha` or is the empty string, whatever `senha` is
and whether or not `senha` passes its own tests. -/
theorem C1_confirmSenha_error_iff (rEmail : String → Bool) (d : FormData) :
    hasError rEmail d .confirmSenha = true ↔
      (d.confirmSenha ≠ d.senha ∨ d.confirmSenha = "") := by
  rw [hasError_iff, ← Bool.not_eq_true]
  simp only [fieldOk, schema, oneOf, required, FormData.get, List.all_cons, List.all_nil,
    List.any_cons, List.any_nil, Bool.or_false, Bool.and_true, Bool.and_eq_true, beq_iff_eq,
    bne_iff_ne, ne_eq, jsLength_eq_zero]
  tauto

/-- C2, as written, fails: a name of three spaces is empty after trimming and
carries no error. -/
theorem C2_counterexample :
    ¬ ∀ (rEmail : String → Bool) (d : FormData),
        (∀ c ∈ d.nome.toList, whitespace c = true) → hasError rEmail d .nome = true := by
  intro h
  have h1 := h (fun _ => true) (defaultValues.set .nome "   ") (by decide)
  revert h1
  decide

/-- C2, amended: the error object has the key `nome` if and only if `nome` is
the empty string; the value is not trimmed, so a name made only of white space,
such as three spaces, carries no error. -/
theorem C2_nome_error_iff (rEmail : String → Bool) (d : FormData) :
    (hasError rEmail d .nome = true ↔ d.nome = "") ∧
      hasError rEmail (defaultValues.set .nome "   ") .nome = false := by
  constructor
  · rw [hasError_iff, ← Bool.not_eq_true]
    simp only [fieldOk, schema, required, FormData.get, List.all_cons, List.all_nil,
      Bool.and_true, bne_iff_ne, ne_eq, jsLength_eq_zero, not_not]
  · rw [hasError_eq_false_iff]
    rfl

/-- C3, as written, fails: with a tab after the closing parenthesis the value
is not of the shape with one space character and passes the tests of `celular`. -/
theorem C3_counterexample :
    ¬ ∀ (rEmail : String → Bool) (d : FormData),
        (hasError rEmail d .celular = false ↔
          hasShape (celularShape (· == ' ')) d.celular.toList = true) := by
  intro h
  have h1 := (h (fun _ => true) (defaultValues.set .celular "(11)\t98765-4321")).mp (by decide)
  revert h1
  decide

/-- C3, amended: `celular` passes its tests if and only if the value is an
opening parenthesis, two decimal digits, a closing parenthesis, one white-space
character of the class `\s` (a space, a tab, a line terminator, ...), five
decimal digits, a hyphen and four decimal digits, with nothing before or after;
`11987654321` is rejected and `(11) 98765-4321` is accepted. -/
theorem C3_celular_passes_iff (rEmail : String → Bool) (d : FormData) :
    (hasError rEmail d .celular = false ↔
        hasShape (celularShape whitespace) d.celular.toList = true) ∧
      hasError rEmail (defaultValues.set .celular "11987654321") .celular = true ∧
      hasError rEmail (defaultValues.set .celular "(11) 98765-4321") .celular = false := by
  refine ⟨?_, ?_, ?_⟩
  · rw [hasError_eq_false_iff, celular_ok_iff]
  · rw [hasError_iff]
    rfl
  · rw [hasError_eq_false_iff]
    rfl

/-- C4: `dataNascimento` passes its tests if and only if the value is
`DD/MM/YYYY`, eight decimal digits and two slashes, with `DD` from 01 to 31, `MM`
from 01 to 12 and `YYYY` starting with 19 or 20; the day is not checked against
the month, and `31/02/2000` is accepted. -/
theorem C4_dataNascimento_passes_iff (rEmail : String → Bool) (d : FormData) :
    (hasError rEmail d .dataNascimento = false ↔
        ∃ d1 d2 m1 m2 y1 y2 y3 y4 : Char,
          d.dataNascimento.toList = [d1, d2, '/', m1, m2, '/', y1, y2, y3, y4] ∧
          (∀ c ∈ [d1, d2, m1, m2, y1, y2, y3, y4], c.isDigit = true) ∧
          1 ≤ num2 d1 d2 ∧ num2 d1 d2 ≤ 31 ∧ 1 ≤ num2 m1 m2 ∧ num2 m1 m2 ≤ 12 ∧
          (num2 y1 y2 = 19 ∨ num2 y1 y2 = 20)) ∧
      hasError rEmail (defaultValues.set .dataNascimento "31/02/2000") .dataNascimento
        = false := by
  constructor
  · rw [hasError_eq_false_iff, dataNascimento_ok_iff]
    rfl
  · rw [hasError_eq_false_iff]
    rfl

/-- C5, as written, fails: with a name of three spaces and every other field
valid, `isValid` is true and the name rule of the specification is broken; the
same holds with a tab after the area code of the phone. -/
theorem C5_counterexample :
    (¬ ∀ (rEmail : String → Bool) (d : FormData),
        (isValid rEmail d = true ↔ SpecRules rEmail d)) ∧
      isValid (fun _ => true)
        ⟨"Ana", "ana@exemplo.com", "(11)\t98765-4321", "31/02/2000", "segredo", "segredo",
          "Gato", "Fêmea", "Adulto", "Médio"⟩ = true ∧
      ¬ SpecRules (fun _ => true)
        ⟨"Ana", "ana@exemplo.com", "(11)\t98765-4321", "31/02/2000", "segredo", "segredo",
          "Gato", "Fêmea", "Adulto", "Médio"⟩ := by
  refine ⟨?_, by decide, ?_⟩
  · intro h
    have h1 := (h (fun _ => true)
      ⟨"   ", "ana@exemplo.com", "(11) 98765-4321", "31/02/2000", "segredo", "segredo",
        "Gato", "Fêmea", "Adulto", "Médio"⟩).mp (by decide)
    have h2 := h1.1
    revert h2
    decide
  · intro h
    have h2 := h.2.2.1
    revert h2
    decide

/-- C5, amended: `isValid` is true if and only if the ten checks the schema
performs pass: the name is not the empty string (it is not trimmed), the e-mail
is present and matches the expression of the library, the phone is
`(NN)` then one character of `\s` then `NNNNN-NNNN`, the birth date is
`DD/MM/YYYY`, the password has six code units or more, the confirmation equals
the password and is not empty, each preference is one of its options. A form in
which every field satisfies its rule as the specification words it is valid;
and `isValid` is computed from the values of the form alone: a callback of the
e-mail check leaves the values as they are, and so does the start of a check. -/
theorem C5_isValid_iff_schema_rules (rEmail : String → Bool) (d : FormData) :
    (isValid rEmail d = true ↔
        d.nome ≠ "" ∧
        (d.email ≠ "" ∧ rEmail d.email = true) ∧
        hasShape (celularShape whitespace) d.celular.toList = true ∧
        IsDate d.dataNascimento.toList ∧
        6 ≤ jsLength d.senha ∧
        (d.confirmSenha = d.senha ∧ d.confirmSenha ≠ "") ∧
        d.especie ∈ ["Cachorro", "Gato"] ∧
        d.sexo ∈ ["Macho", "Fêmea"] ∧
        d.idade ∈ ["Filhote", "Adulto", "Idoso"] ∧
        d.porte ∈ ["Pequeno", "Médio", "Grande"]) ∧
      (SpecRules rEmail d → isValid rEmail d = true) ∧
      (∀ t : Tela, (timeout t).values = t.values) ∧
      (∀ (e : String) (t : Tela), (verificaEmail e t).values = t.values) ∧
      (∀ (a b : Tela), a.values = b.values →
        isValid rEmail a.values = isValid rEmail b.values) := by
  refine ⟨?_, specRules_valid rEmail d, ?_, ?_, ?_⟩
  · rw [isValid_iff]
    simp only [fieldOk_iff_rule]
    constructor
    · intro h
      exact ⟨h .nome, h .email, h .celular, h .dataNascimento, h .senha, h .confirmSenha,
        h .especie, h .sexo, h .idade, h .porte⟩
    · rintro ⟨h1, h2, h3, h4, h5, h6, h7, h8, h9, h10⟩ c
      cases c <;> assumption
  · intro t
    unfold timeout
    split <;> rfl
  · intro e t
    rfl
  · intro a b h
    rw [h]

/-- C5 at a form that satisfies every rule. -/
theorem C5_valid_form_witness :
    isValid (fun _ => true)
      ⟨"Ana", "ana@exemplo.com", "(11) 98765-4321", "31/02/2000", "segredo", "segredo",
        "Gato", "Fêmea", "Adulto", "Médio"⟩ = true :=
  (C5_isValid_iff_schema_rules (fun _ => true) _).2.1
    ⟨⟨'A', by decide, by decide⟩, ⟨by decide, rfl⟩, by decide,
      ⟨'3', '1', '0', '2', '2', '0', '0', '0', rfl, by decide, by decide, by decide, by decide,
        by decide, by decide⟩,
      by decide, rfl, by decide, by decide, by decide, by decide⟩

/-- C6, as written, fails twice. A name of three spaces breaks the name rule of
the specification and the form is valid, with no key for it. And when the
screen is mounted the values break the rules, `isValid` is false, and the
`errors` of `formState` have no key at all: a key enters them when its own field
is changed. -/
theorem C6_counterexample :
    (¬ ∀ (rEmail : String → Bool) (d : FormData),
        ¬ SpecRules rEmail d → isValid rEmail d = false) ∧
      (¬ ∀ (rEmail : String → Bool) (evs : List Evento) (c : Campo),
        ¬ SchemaRule rEmail (run rEmail evs Tela.inicial).values c →
          (formErrors rEmail evs Tela.inicial []).any (fun x => x.1 == c) = true) := by
  constructor
  · intro h
    have h1 := h (fun _ => true)
      ⟨"   ", "ana@exemplo.com", "(11) 98765-4321", "31/02/2000", "segredo", "segredo",
        "Gato", "Fêmea", "Adulto", "Médio"⟩
      (fun hs => by
        have h2 := hs.1
        revert h2
        decide)
    revert h1
    decide
  · intro h
    have h1 := h (fun _ => true) [] .nome (fun hr => hr rfl)
    revert h1
    decide

/-- C6, amended: when a key fails the check the schema performs on it,
`isValid` is false and the error object of the validation has that key, with a
message, whatever the other keys do. The `errors` of `formState` receive the
key when that field is the one changed, the other keys staying as they were,
and are empty when the screen is mounted; the form of the default values is
invalid. -/
theorem C6_schema_violation_reported (rEmail : String → Bool) (d : FormData) (c : Campo)
    (h : ¬ SchemaRule rEmail d c) :
    isValid rEmail d = false ∧ hasError rEmail d c = true ∧
      (∃ m, (c, m) ∈ resolverErrors rEmail d) ∧
      (∀ (t : Tela) (errs : List (Campo × String)) (v : String), t.values.set c v = d →
        (stepFormErrors rEmail t errs (.change c v)).any (fun x => x.1 == c) = true ∧
        ∀ k, k ≠ c →
          (stepFormErrors rEmail t errs (.change c v)).any (fun x => x.1 == k)
            = errs.any (fun x => x.1 == k)) ∧
      formErrors rEmail [] Tela.inicial [] = [] ∧
      isValid rEmail defaultValues = false := by
  have hok : fieldOk rEmail d c = false := by
    rw [← Bool.not_eq_true, fieldOk_iff_rule]
    exact h
  have hE : hasError rEmail d c = true := (hasError_iff rEmail d c).mpr hok
  refine ⟨?_, hE, ?_, ?_, rfl, ?_⟩
  · rw [← Bool.not_eq_true, isValid_iff]
    intro hall
    rw [hall c] at hok
    exact Bool.noConfusion hok
  · unfold hasError at hE
    obtain ⟨x, hx, hxc⟩ := List.any_eq_true.mp hE
    refine ⟨x.2, ?_⟩
    have : x.1 = c := by simpa using hxc
    rw [← this]
    exact hx
  · intro t errs v hd
    constructor
    · exact stepFormErrors_change_key rEmail t errs c v (by rw [hd]; exact hE)
    · exact fun k hk => stepFormErrors_change_other rEmail t errs c v k hk
  · rw [← Bool.not_eq_true, isValid_iff]
    intro hall
    have := hall .nome
    rw [fieldOk_iff_rule] at this
    exact this rfl

/-- C6 at the default values, for the key `nome`. -/
theorem C6_schema_violation_reported_witness :
    isValid (fun _ => true) defaultValues = false ∧
      hasError (fun _ => true) defaultValues .nome = true :=
  have h := C6_schema_violation_reported (fun _ => true) defaultValues .nome (fun hr => hr rfl)
  ⟨h.1, h.2.1⟩

/-- C7: a press on the submit button calls `onSubmit` if and only if the form
is valid; it is then called once, with the values of the form as they are; when
the form is invalid nothing happens, and `handleSubmit` does not call `onSubmit`
either. -/
theorem C7_submit_iff_valid (rEmail : String → Bool) (t : Tela) :
    ((onPress rEmail t).alerts = t.alerts ++ [.sucesso t.values] ↔
        isValid rEmail t.values = true) ∧
      (isValid rEmail t.values = true →
        onPress rEmail t = onSubmit t.values t ∧ handleSubmit rEmail t = onSubmit t.values t) ∧
      (isValid rEmail t.values = false →
        onPress rEmail t = t ∧ handleSubmit rEmail t = t) := by
  have hv : ∀ b : Bool, isValid rEmail t.values = b → (resolverErrors rEmail t.values).isEmpty = b :=
    fun b h => h
  refine ⟨?_, ?_, ?_⟩
  · constructor
    · intro h
      cases hval : isValid rEmail t.values with
      | true => rfl
      | false =>
        exfalso
        unfold onPress at h
        rw [hval] at h
        simp at h
    · intro h
      unfold onPress handleSubmit
      rw [h, hv true h]
      rfl
  · intro h
    unfold onPress handleSubmit
    rw [h, hv true h]
    exact ⟨rfl, rfl⟩
  · intro h
    unfold onPress handleSubmit
    rw [h, hv false h]
    exact ⟨rfl, rfl⟩

/-- C8, as written, fails: the address in capitals is not the literal and is
reported as registered, and the alert follows. -/
theorem C8_counterexample :
    (¬ ∀ e : String, (verificaEmailOk e = false ↔ e = "teste@teste.com")) ∧
      (run (fun _ => true) [.change .email "TESTE@TESTE.COM", .timeout] Tela.inicial).alerts
        = [.emailJaCadastrado] := by
  constructor
  · intro h
    have h1 := (h "TESTE@TESTE.COM").mp (by decide)
    revert h1
    decide
  · decide

/-- C8, amended: `verificaEmail` reports the address as registered, and the
alert follows when its callback runs, if and only if the address put in lower
case is `teste@teste.com`, that is, the address is that literal in any mix of
upper and lower case; any other string is reported as available and raises no
alert. -/
theorem C8_registered_iff_lowercase (e : String) :
    (verificaEmailOk e = false ↔ e.toList.map Char.toLower = "teste@teste.com".toList) ∧
      (∀ (t : Tela) (rest : List String), t.timers = e :: rest →
        (timeout t).alerts = t.alerts ++
          (if e.toList.map Char.toLower = "teste@teste.com".toList
            then [.emailJaCadastrado] else [])) ∧
      verificaEmailOk "teste@teste.com" = false ∧ verificaEmailOk "Teste@Teste.Com" = false := by
  refine ⟨verificaEmailOk_eq_false_iff e, ?_, by decide, by decide⟩
  intro t rest h
  rw [timeout_cons t e rest h]
  by_cases hl : e.toList.map Char.toLower = "teste@teste.com".toList
  · rw [if_pos hl, (verificaEmailOk_eq_false_iff e).mpr hl]
    rfl
  · rw [if_neg hl]
    have : verificaEmailOk e = true := by
      rw [← Bool.not_eq_false, verificaEmailOk_eq_false_iff]
      exact hl
    rw [this]
    rfl

/-- C9, as written, fails: a second check starts, the callback of the first one
runs, and the flag is false while the second check is pending; the first check
was for the registered address and its alert is raised all the same. -/
theorem C9_counterexample :
    (¬ ∀ (rEmail : String → Bool) (evs : List Evento),
        (run rEmail evs Tela.inicial).timers ≠ [] →
          (run rEmail evs Tela.inicial).verificandoEmail = true) ∧
      run (fun _ => true)
          [.change .email "teste@teste.com", .change .email "outro@teste.com", .timeout]
          Tela.inicial
        = ⟨defaultValues.set .email "outro@teste.com", false, ["outro@teste.com"],
            [.emailJaCadastrado]⟩ := by
  constructor
  · intro h
    have h1 := h (fun _ => true)
      [.change .email "teste@teste.com", .change .email "outro@teste.com", .timeout] (by decide)
    revert h1
    decide
  · decide

/-- C9, amended: no check is ignored. The callback of a check, whether or not a
newer check has started, sets the flag to false and raises the alert when its
own address is the registered one; the start of a check sets the flag to true.
In every reachable state in which the flag is true some check is pending; the
converse is what fails. -/
theorem C9_every_resolution_counts (rEmail : String → Bool) (evs : List Evento) :
    ((run rEmail evs Tela.inicial).verificandoEmail = true →
        (run rEmail evs Tela.inicial).timers ≠ []) ∧
      (∀ (t : Tela) (e : String) (rest : List String), t.timers = e :: rest →
        (timeout t).verificandoEmail = false ∧ (timeout t).timers = rest ∧
          (timeout t).alerts =
            t.alerts ++ (if verificaEmailOk e then [] else [.emailJaCadastrado])) ∧
      (∀ (t : Tela) (v : String), v ≠ t.values.email → watcherTriggers v = true →
        (onChange .email v t).verificandoEmail = true ∧
          (onChange .email v t).timers = t.timers ++ [v]) := by
  refine ⟨run_pending rEmail evs Tela.inicial (fun h => Bool.noConfusion h), ?_, ?_⟩
  · intro t e rest h
    rw [timeout_cons t e rest h]
    exact ⟨rfl, rfl, rfl⟩
  · intro t v hv htr
    rw [onChange_email t v hv, htr]
    exact ⟨rfl, rfl⟩

/-- C10: a change of `email` to a new value `v` starts the check if and only if
`v` is not empty and has, somewhere in it, a run free of white space made of one
character or more, an `@`, one character or more, a `.` and one character or
more. A value without `@`, or with no `.` after an `@`, starts no check; the
value `x a@b.c` starts one. A change of another field starts none. -/
theorem C10_watcher_triggers_iff (v : String) :
    (watcherTriggers v = true ↔
        v ≠ "" ∧ ∃ pre a b c post, v.toList = pre ++ (a ++ '@' :: (b ++ '.' :: c)) ++ post ∧
          a ≠ [] ∧ b ≠ [] ∧ c ≠ [] ∧ ∀ x ∈ a ++ b ++ c, whitespace x = false) ∧
      (∀ t : Tela, v ≠ t.values.email →
        (onChange .email v t).timers = if watcherTriggers v then t.timers ++ [v] else t.timers) ∧
      (∀ (t : Tela) (k : Campo), k ≠ .email → (onChange k v t).timers = t.timers) ∧
      ('@' ∉ v.toList → watcherTriggers v = false) ∧
      ((∀ pre post, v.toList = pre ++ '@' :: post → '.' ∉ post) → watcherTriggers v = false) ∧
      watcherTriggers "x a@b.c" = true := by
  refine ⟨watcherTriggers_iff v, ?_, ?_, ?_, ?_, by decide⟩
  · intro t hv
    rw [onChange_email t v hv]
    split <;> rfl
  · intro t k hk
    unfold onChange
    rw [if_neg (fun h => hk h.1)]
  · intro hat
    rw [← Bool.not_eq_true, watcherTriggers_iff]
    rintro ⟨_, pre, a, b, c, post, hs, _⟩
    apply hat
    rw [hs]
    simp
  · intro hdot
    rw [← Bool.not_eq_true, watcherTriggers_iff]
    rintro ⟨_, pre, a, b, c, post, hs, _⟩
    apply hdot (pre ++ a) (b ++ '.' :: c ++ post)
    · rw [hs]
      simp
    · simp

end CadastroPets
